import Mathlib

/-!
Shallow embedding of `drewcrawford/tgar` (`src/lib.rs`), a TGA encoder for
32-bit uncompressed BGRA images, together with proofs about its observable
byte-level behaviour.

Modelling notes, traced from the source:

* `PixelBGRA` is `#[repr(C)]` with `u8` fields in order `b, g, r, a`; its
  byte image is `[b, g, r, a]`.
* `Header` is `#[repr(C)]` with fields `id_length: u8`, `color_map_type: u8`,
  `image_type: u8`, `color_map_specification: [u8; 5]`,
  `image_specification: ImageSpecification`, `image_id: [u8; 17]`.
  `ImageSpecification` is `#[repr(C)]` with `x_origin, y_origin, image_width,
  image_height : u16` and `pixel_depth, image_descriptor : u8`, hence has
  size 10 and alignment 2.  The `u16` fields are stored little-endian in the
  file: the source stores `width.to_le()` into a native-endian `u16` slot,
  which yields little-endian bytes on either host, so the byte image of a
  `u16` field here is `le16`.  Field offsets inside `Header` are therefore
  0, 1, 2, 3..7, 8..17 (the `ImageSpecification`), 18..34 (the `image_id`),
  for 35 bytes of fields; the struct has alignment 2, so
  `core::mem::size_of::<Header>()` is 36, with one trailing padding byte
  whose value is indeterminate.
* `BGRA::new` computes `allocation_size = size_of::<Header>() + 4 * data.len()`
  and `data_offset = size_of::<Header>() - 1 = 35`, asserts
  `width as usize * height as usize == data.len()`, creates a `Vec` of the
  allocation size (contents uninitialized), writes the 36-byte `Header` value
  at offset 0, then writes the pixels, 4 bytes each, starting at offset 35.
  The uninitialized allocation contents are modelled by the function `mem`
  (byte `i` of the fresh allocation is `mem i`), and the indeterminate value
  of the `Header` value's trailing padding byte by `pad`.  The failed
  `assert!` (a panic, so no buffer is ever returned) is modelled by `none`.
-/

namespace Tgar

/-- Little-endian byte image of a `u16` value: low byte then high byte. -/
def le16 (x : Nat) : List Nat := [x % 256, x / 256 % 256]

/-- `PixelBGRA`: the `#[repr(C)]` 32-bit BGRA pixel, fields in declaration
order `b, g, r, a`, each a `u8`. -/
structure PixelBGRA where
  b : Nat
  g : Nat
  r : Nat
  a : Nat
  deriving DecidableEq

/-- Byte image of a `PixelBGRA` under `repr(C)`: `[b, g, r, a]`. -/
def PixelBGRA.bytes (p : PixelBGRA) : List Nat := [p.b, p.g, p.r, p.a]

/-- Concatenated byte images of a pixel sequence, in input order. -/
def pixelBytes : List PixelBGRA → List Nat
  | [] => []
  | p :: ps => p.bytes ++ pixelBytes ps

/-- `const IMAGE_ID: [u8; 17] = *b"drewcrawford/tgar";` as its byte values. -/
def IMAGE_ID : List Nat :=
  [100, 114, 101, 119, 99, 114, 97, 119, 102, 111, 114, 100, 47, 116, 103, 97, 114]

/-- `struct ImageSpecification`, `#[repr(C)]`. -/
structure ImageSpecification where
  x_origin : Nat
  y_origin : Nat
  image_width : Nat
  image_height : Nat
  pixel_depth : Nat
  image_descriptor : Nat
  deriving DecidableEq

/-- `struct Header`, `#[repr(C)]`. -/
structure Header where
  id_length : Nat
  color_map_type : Nat
  image_type : Nat
  color_map_specification : List Nat
  image_specification : ImageSpecification
  image_id : List Nat
  deriving DecidableEq

/-- `Header::new_bgra(width, height)`.  `width.to_le()` / `height.to_le()`
are identities at the value level (endianness is handled in the byte image,
see `ImageSpecification.bytes`). -/
def Header.new_bgra (width height : Nat) : Header :=
  { id_length := IMAGE_ID.length
    color_map_type := 0
    image_type := 2
    color_map_specification := [0, 0, 0, 0, 0]
    image_specification :=
      { x_origin := 0
        y_origin := 0
        image_width := width
        image_height := height
        pixel_depth := 32
        image_descriptor := 8 ||| (1 <<< 5) ||| 0 }
    image_id := IMAGE_ID }

/-- Byte image of `ImageSpecification` under `repr(C)` (size 10, no internal
padding): the four `u16` fields little-endian, then the two `u8` fields. -/
def ImageSpecification.bytes (s : ImageSpecification) : List Nat :=
  le16 s.x_origin ++ le16 s.y_origin ++ le16 s.image_width ++ le16 s.image_height ++
    [s.pixel_depth, s.image_descriptor]

/-- The 35 field bytes of a `Header` under `repr(C)` (offsets 0..34; the
struct's 36th byte is trailing padding and is not a field). -/
def Header.fieldBytes (h : Header) : List Nat :=
  [h.id_length, h.color_map_type, h.image_type] ++ h.color_map_specification ++
    h.image_specification.bytes ++ h.image_id

/-- `core::mem::size_of::<Header>()`: 35 field bytes rounded up to the
struct's alignment 2, i.e. one trailing padding byte. -/
def sizeOfHeader : Nat := 36

/-- The header size in the sense of the spec: 18 bytes of fixed fields plus
the `image_id` string (35 bytes). -/
def HEADER_SIZE : Nat := 18 + IMAGE_ID.length

/-- Overwrite `buf` from offset `off` with the bytes `bs` (a raw pointer
write of `bs.length` bytes at `off`). -/
def writeAt (buf : List Nat) (off : Nat) (bs : List Nat) : List Nat :=
  buf.take off ++ bs ++ buf.drop (off + bs.length)

/-- The pixel loop of `BGRA::new`: write each pixel's 4 bytes at `off`,
advancing by `size_of::<PixelBGRA>() = 4`. -/
def writePixels (buf : List Nat) (off : Nat) : List PixelBGRA → List Nat
  | [] => buf
  | p :: ps => writePixels (writeAt buf off p.bytes) (off + 4) ps

/-- `BGRA::new(width, height, data)`, returning the byte buffer held by the
resulting `BGRA` value.  `mem i` is the indeterminate initial content of
byte `i` of the fresh allocation; `pad` is the indeterminate value of the
`Header` value's trailing padding byte.  `none` models the `assert!` panic. -/
def encode (width height : Nat) (data : List PixelBGRA) (mem : Nat → Nat) (pad : Nat) :
    Option (List Nat) :=
  let allocation_size := sizeOfHeader + 4 * data.length
  let data_offset := sizeOfHeader - 1
  if width * height = data.length then
    let buf0 := (List.range allocation_size).map mem
    let buf1 := writeAt buf0 0 ((Header.new_bgra width height).fieldBytes ++ [pad])
    some (writePixels buf1 data_offset data)
  else
    none

/-- The layout table of the spec (section 6), written field by field at its
declared offsets: `id_length` at 0, `color_map_type` at 1, `image_type` at 2,
`color_map_spec` at 3..7, `x_origin` at 8..9, `y_origin` at 10..11,
`image_width` at 12..13, `image_height` at 14..15, `pixel_depth` at 16,
`image_descriptor` at 17, `image_id` at 18..(18+N-1).  This is a spec-side
definition, for comparison with the code's `Header.fieldBytes`. -/
def specHeaderBytes (width height : Nat) : List Nat :=
  [IMAGE_ID.length] ++ [0] ++ [2] ++ [0, 0, 0, 0, 0] ++ le16 0 ++ le16 0 ++
    le16 width ++ le16 height ++ [32] ++ [0b00101000] ++ IMAGE_ID

lemma fieldBytes_new_bgra (w h : Nat) :
    (Header.new_bgra w h).fieldBytes =
      [17, 0, 2, 0, 0, 0, 0, 0, 0, 0, 0, 0,
        w % 256, w / 256 % 256, h % 256, h / 256 % 256, 32, 40] ++ IMAGE_ID := by
  simp [Header.fieldBytes, Header.new_bgra, ImageSpecification.bytes, le16, IMAGE_ID]

lemma fieldBytes_eq_specHeaderBytes (w h : Nat) :
    (Header.new_bgra w h).fieldBytes = specHeaderBytes w h := rfl

lemma length_fieldBytes (w h : Nat) : (Header.new_bgra w h).fieldBytes.length = 35 := rfl

lemma writeAt_append (pre suf bs : List Nat) :
    writeAt (pre ++ suf) pre.length bs = pre ++ (bs ++ suf.drop bs.length) := by
  simp [writeAt, List.take_left, List.drop_append, List.append_assoc]

lemma writePixels_append (ps : List PixelBGRA) :
    ∀ pre suf : List Nat, 4 * ps.length ≤ suf.length →
      writePixels (pre ++ suf) pre.length ps =
        pre ++ (pixelBytes ps ++ suf.drop (4 * ps.length)) := by
  induction ps with
  | nil => intro pre suf _; simp [writePixels, pixelBytes]
  | cons p ps ih =>
    intro pre suf hlen
    have hb : p.bytes.length = 4 := rfl
    have hlen2 : 4 * ps.length ≤ (suf.drop 4).length := by
      rw [List.length_drop]
      simp only [List.length_cons] at hlen
      omega
    have hpre : pre.length + 4 = (pre ++ p.bytes).length := by simp [hb]
    rw [writePixels, writeAt_append, hb, ← List.append_assoc, hpre,
      ih (pre ++ p.bytes) (suf.drop 4) hlen2]
    have hdrop : 4 * (p :: ps).length = 4 + 4 * ps.length := by
      simp only [List.length_cons]
      ring
    rw [hdrop, ← List.drop_drop]
    simp [pixelBytes, List.append_assoc]

/-- Shape of a successful `encode`: the 35 header field bytes, then the pixel
bytes in input order, then one trailing byte that comes from memory the code
never initializes (the allocation's last byte when there is at least one
pixel, the `Header` value's padding byte when there are none). -/
lemma encode_eq_some (width height : Nat) (data : List PixelBGRA) (mem : Nat → Nat) (pad : Nat)
    (hlen : width * height = data.length) :
    ∃ junk : Nat,
      encode width height data mem pad =
        some ((Header.new_bgra width height).fieldBytes ++
          (pixelBytes data ++ [junk])) := by
  have hF : (Header.new_bgra width height).fieldBytes.length = 35 := rfl
  have hbuf0 : ((List.range (sizeOfHeader + 4 * data.length)).map mem).length
      = 36 + 4 * data.length := by simp [sizeOfHeader]
  have h1 : writeAt ((List.range (sizeOfHeader + 4 * data.length)).map mem) 0
        ((Header.new_bgra width height).fieldBytes ++ [pad])
      = (Header.new_bgra width height).fieldBytes ++
        ([pad] ++ ((List.range (sizeOfHeader + 4 * data.length)).map mem).drop 36) := by
    simp [writeAt, hF, List.append_assoc]
  have hsuf : ([pad] ++ ((List.range (sizeOfHeader + 4 * data.length)).map mem).drop 36).length
      = 1 + 4 * data.length := by
    simp only [List.length_append, List.length_drop, hbuf0, List.length_cons, List.length_nil]
    omega
  have htail : (([pad] ++ ((List.range (sizeOfHeader + 4 * data.length)).map mem).drop 36).drop
      (4 * data.length)).length = 1 := by
    rw [List.length_drop, hsuf]
    omega
  obtain ⟨junk, hjunk⟩ := List.length_eq_one.mp htail
  refine ⟨junk, ?_⟩
  show (if width * height = data.length then
      some (writePixels
        (writeAt ((List.range (sizeOfHeader + 4 * data.length)).map mem) 0
          ((Header.new_bgra width height).fieldBytes ++ [pad]))
        (sizeOfHeader - 1) data)
    else none) = _
  rw [if_pos hlen, h1]
  have h35 : sizeOfHeader - 1 = (Header.new_bgra width height).fieldBytes.length := by
    rw [hF]
    decide
  rw [h35, writePixels_append data _ _ (by rw [hsuf]; omega), hjunk]

lemma length_pixelBytes (ps : List PixelBGRA) : (pixelBytes ps).length = 4 * ps.length := by
  induction ps with
  | nil => simp [pixelBytes]
  | cons p ps ih =>
    simp [pixelBytes, PixelBGRA.bytes, ih]
    ring

lemma pixelBytes_drop (i : Nat) :
    ∀ ps : List PixelBGRA, (pixelBytes ps).drop (4 * i) = pixelBytes (ps.drop i) := by
  induction i with
  | zero => intro ps; simp
  | succ i ih =>
    intro ps
    cases ps with
    | nil => simp [pixelBytes]
    | cons p ps =>
      have hb : p.bytes.length = 4 := rfl
      rw [pixelBytes, show 4 * (i + 1) = p.bytes.length + 4 * i from by rw [hb]; ring,
        List.drop_append, ih ps]
      simp

lemma pixelBytes_take_at (data : List PixelBGRA) (i : Nat) (hi : i < data.length)
    (rest : List Nat) :
    ((pixelBytes data ++ rest).drop (4 * i)).take 4 = (data.get ⟨i, hi⟩).bytes := by
  have h4i : 4 * i ≤ (pixelBytes data).length := by
    rw [length_pixelBytes]
    omega
  rw [List.drop_append_of_le_length h4i, pixelBytes_drop, List.drop_eq_getElem_cons hi,
    pixelBytes, List.append_assoc,
    List.take_append_of_le_length (by simp [PixelBGRA.bytes])]
  simp [PixelBGRA.bytes, List.get_eq_getElem]

lemma fieldBytes_id_slice (w h : Nat) (rest : List Nat) :
    (((Header.new_bgra w h).fieldBytes ++ rest).drop 18).take 17 = IMAGE_ID := by
  rw [fieldBytes_new_bgra, List.append_assoc]
  rw [show (18 : Nat) = ([17, 0, 2, 0, 0, 0, 0, 0, 0, 0, 0, 0, w % 256, w / 256 % 256,
      h % 256, h / 256 % 256, 32, 40] : List Nat).length from rfl, List.drop_left]
  rw [show (17 : Nat) = IMAGE_ID.length from rfl, List.take_left]

lemma IMAGE_ID_eq_string : IMAGE_ID = "drewcrawford/tgar".data.map Char.toNat := by decide

/-- C1: the claim states that for pixel arrays of length `width * height` the
returned buffer has length `HEADER_SIZE + 4 * width * height`, with
`HEADER_SIZE = 35` (18 fixed bytes plus the 17-byte image id).  The code in
fact allocates `size_of::<Header>() = 36` bytes for the header region — the
35 field bytes plus one `repr(C)` trailing padding byte — so every returned
buffer is one byte longer than claimed, and that final byte is never
written. -/
theorem C1_encode_length (width height : Nat) (data : List PixelBGRA)
    (mem : Nat → Nat) (pad : Nat) (hlen : width * height = data.length) :
    ((encode width height data mem pad).getD []).length
      = HEADER_SIZE + 1 + 4 * (width * height) := by
  obtain ⟨junk, hj⟩ := encode_eq_some width height data mem pad hlen
  rw [hj]
  simp only [Option.getD_some, List.length_append, length_fieldBytes, length_pixelBytes,
    List.length_cons, List.length_nil]
  have hH : HEADER_SIZE = 35 := rfl
  rw [hH, hlen]
  omega

theorem C1_encode_length_witness :
    (0 * 0 = ([] : List PixelBGRA).length) ∧
      ((encode 0 0 [] (fun _ => 0) 0).getD []).length = HEADER_SIZE + 1 + 4 * (0 * 0) :=
  ⟨rfl, C1_encode_length 0 0 [] (fun _ => 0) 0 rfl⟩

/-- C2: for every valid call (`pixels.length = width * height`) and every
`i < width * height`, the 4 bytes of the returned buffer at offsets
`HEADER_SIZE + 4*i` .. `HEADER_SIZE + 4*i + 3` are
`[pixels[i].b, pixels[i].g, pixels[i].r, pixels[i].a]`, in that order. -/
theorem C2_pixel_fidelity (width height : Nat) (data : List PixelBGRA)
    (mem : Nat → Nat) (pad : Nat) (hlen : width * height = data.length)
    (i : Nat) (hi : i < data.length) :
    (((encode width height data mem pad).getD []).drop (HEADER_SIZE + 4 * i)).take 4
      = [(data.get ⟨i, hi⟩).b, (data.get ⟨i, hi⟩).g,
         (data.get ⟨i, hi⟩).r, (data.get ⟨i, hi⟩).a] := by
  obtain ⟨junk, hj⟩ := encode_eq_some width height data mem pad hlen
  rw [hj]
  simp only [Option.getD_some]
  have hoff : HEADER_SIZE + 4 * i = (Header.new_bgra width height).fieldBytes.length + 4 * i := by
    rw [length_fieldBytes]
    rfl
  rw [hoff, List.drop_append, pixelBytes_take_at data i hi [junk]]
  rfl

theorem C2_pixel_fidelity_witness :
    (1 * 1 = [PixelBGRA.mk 1 2 3 4].length) ∧ 0 < [PixelBGRA.mk 1 2 3 4].length ∧
      (((encode 1 1 [PixelBGRA.mk 1 2 3 4] (fun _ => 0) 0).getD []).drop
          (HEADER_SIZE + 4 * 0)).take 4 = [1, 2, 3, 4] :=
  ⟨rfl, by decide, C2_pixel_fidelity 1 1 [PixelBGRA.mk 1 2 3 4] (fun _ => 0) 0 rfl 0 (by decide)⟩

/-- C3: the claim states that `encode(1, 1, [pixel r=255 g=127 b=3 a=0])`
returns a buffer of length `HEADER_SIZE + 4` whose last 4 bytes are
`[3, 127, 255, 0]`.  On the code the buffer has length `HEADER_SIZE + 5`
(one extra, never-written byte at the end), the pixel bytes `[3, 127, 255, 0]`
sit at offsets 35..38, and the last 4 bytes are `[127, 255, 0, junk]` where
`junk` is the uninitialized final byte (here modelled as `mem = fun _ => 9`,
`pad = 7`). -/
theorem C3_scenario_1x1 :
    ((encode 1 1 [PixelBGRA.mk 3 127 255 0] (fun _ => 9) 7).getD []).length
        = HEADER_SIZE + 5 ∧
      ((encode 1 1 [PixelBGRA.mk 3 127 255 0] (fun _ => 9) 7).getD []).length
        ≠ HEADER_SIZE + 4 ∧
      (((encode 1 1 [PixelBGRA.mk 3 127 255 0] (fun _ => 9) 7).getD []).drop
        HEADER_SIZE).take 4 = [3, 127, 255, 0] ∧
      ((encode 1 1 [PixelBGRA.mk 3 127 255 0] (fun _ => 9) 7).getD []).drop
        (HEADER_SIZE + 1) = [127, 255, 0, 9] := by
  decide

/-- C4: whenever `pixels.length ≠ width * height` (as arbitrary-precision
naturals, matching the `usize` comparison), `encode` fails the `assert!` and
never returns a buffer; in the source the assertion sits before the buffer
allocation and before any write, and it is modelled here by `none` — no
partial buffer exists on this path. -/
theorem C4_mismatch_none (width height : Nat) (data : List PixelBGRA)
    (mem : Nat → Nat) (pad : Nat) (h : width * height ≠ data.length) :
    encode width height data mem pad = none := by
  simp [encode, h]

theorem C4_mismatch_none_witness :
    (1 * 1 ≠ ([] : List PixelBGRA).length) ∧ encode 1 1 [] (fun _ => 0) 0 = none :=
  ⟨by decide, C4_mismatch_none 1 1 [] (fun _ => 0) 0 (by decide)⟩

/-- C5: for every valid call with `u16` dimensions, the bytes at offsets
12..13 of the returned buffer decode as a little-endian `u16` to the original
width, and the bytes at offsets 14..15 to the original height.  Host
endianness does not enter the model: `width.to_le()` stored in a `repr(C)`
`u16` slot yields little-endian bytes on either host, which is exactly what
`le16` produces. -/
theorem C5_header_roundtrip (width height : Nat) (data : List PixelBGRA)
    (mem : Nat → Nat) (pad : Nat) (hw : width < 65536) (hh : height < 65536)
    (hlen : width * height = data.length) :
    ((encode width height data mem pad).getD []).getD 12 0
        + 256 * ((encode width height data mem pad).getD []).getD 13 0 = width ∧
      ((encode width height data mem pad).getD []).getD 14 0
        + 256 * ((encode width height data mem pad).getD []).getD 15 0 = height := by
  obtain ⟨junk, hj⟩ := encode_eq_some width height data mem pad hlen
  rw [hj]
  simp only [Option.getD_some, fieldBytes_new_bgra]
  constructor
  · show width % 256 + 256 * (width / 256 % 256) = width
    omega
  · show height % 256 + 256 * (height / 256 % 256) = height
    omega

theorem C5_header_roundtrip_witness :
    258 < 65536 ∧ 0 < 65536 ∧ (258 * 0 = ([] : List PixelBGRA).length) ∧
      (((encode 258 0 [] (fun _ => 0) 0).getD []).getD 12 0
          + 256 * ((encode 258 0 [] (fun _ => 0) 0).getD []).getD 13 0 = 258 ∧
        ((encode 258 0 [] (fun _ => 0) 0).getD []).getD 14 0
          + 256 * ((encode 258 0 [] (fun _ => 0) 0).getD []).getD 15 0 = 0) :=
  ⟨by decide, by decide, rfl,
    C5_header_roundtrip 258 0 [] (fun _ => 0) 0 (by decide) (by decide) rfl⟩

/-- C6: for every valid call, independent of all inputs, the header constants
hold: byte 1 (`color_map_type`) is 0, byte 2 (`image_type`) is 2, byte 16
(`pixel_depth`) is 32, and byte 17 (`image_descriptor`) is
`0b00101000 = 8 ||| (1 <<< 5)`. -/
theorem C6_fixed_header_fields (width height : Nat) (data : List PixelBGRA)
    (mem : Nat → Nat) (pad : Nat) (hlen : width * height = data.length) :
    ((encode width height data mem pad).getD []).getD 1 0 = 0 ∧
      ((encode width height data mem pad).getD []).getD 2 0 = 2 ∧
      ((encode width height data mem pad).getD []).getD 16 0 = 32 ∧
      ((encode width height data mem pad).getD []).getD 17 0 = 0b00101000 := by
  obtain ⟨junk, hj⟩ := encode_eq_some width height data mem pad hlen
  rw [hj]
  simp only [Option.getD_some, fieldBytes_new_bgra]
  exact ⟨rfl, rfl, rfl, rfl⟩

theorem C6_fixed_header_fields_witness :
    (0 * 0 = ([] : List PixelBGRA).length) ∧
      (((encode 0 0 [] (fun _ => 0) 0).getD []).getD 1 0 = 0 ∧
        ((encode 0 0 [] (fun _ => 0) 0).getD []).getD 2 0 = 2 ∧
        ((encode 0 0 [] (fun _ => 0) 0).getD []).getD 16 0 = 32 ∧
        ((encode 0 0 [] (fun _ => 0) 0).getD []).getD 17 0 = 0b00101000) :=
  ⟨rfl, C6_fixed_header_fields 0 0 [] (fun _ => 0) 0 rfl⟩

/-- C7: every successful encode is exactly the spec's section-6 layout —
each header field packed at its declared offset with no padding between
fields (`specHeaderBytes` is that table written field by field), followed
immediately, at offset `18 + N = HEADER_SIZE`, by the pixel bytes in input
order, with no gap and no overlap.  (One extra never-written byte trails the
pixel data; it lies after the region this claim speaks about.) -/
theorem C7_layout (width height : Nat) (data : List PixelBGRA)
    (mem : Nat → Nat) (pad : Nat) (hlen : width * height = data.length) :
    ∃ junk : Nat,
      encode width height data mem pad =
          some (specHeaderBytes width height ++ (pixelBytes data ++ [junk])) ∧
        (specHeaderBytes width height).length = HEADER_SIZE := by
  obtain ⟨junk, hj⟩ := encode_eq_some width height data mem pad hlen
  rw [fieldBytes_eq_specHeaderBytes] at hj
  exact ⟨junk, hj, rfl⟩

theorem C7_layout_witness :
    (1 * 1 = [PixelBGRA.mk 1 2 3 4].length) ∧
      ∃ junk : Nat,
        encode 1 1 [PixelBGRA.mk 1 2 3 4] (fun _ => 0) 0 =
            some (specHeaderBytes 1 1 ++ (pixelBytes [PixelBGRA.mk 1 2 3 4] ++ [junk])) ∧
          (specHeaderBytes 1 1).length = HEADER_SIZE :=
  ⟨rfl, C7_layout 1 1 [PixelBGRA.mk 1 2 3 4] (fun _ => 0) 0 rfl⟩

/-- C8: the claim states that `encode(0, 0, [])` returns a buffer of length
exactly `HEADER_SIZE` (header only, no pixel bytes).  On the code the call
succeeds but the buffer has length `HEADER_SIZE + 1 = 36`: the 35 header
bytes are followed by one byte of indeterminate content (the `Header`
value's `repr(C)` trailing padding byte, here modelled as `pad = 7`). -/
theorem C8_empty_image :
    encode 0 0 [] (fun _ => 9) 7 = some (specHeaderBytes 0 0 ++ [7]) ∧
      ((encode 0 0 [] (fun _ => 9) 7).getD []).length = HEADER_SIZE + 1 ∧
      ((encode 0 0 [] (fun _ => 9) 7).getD []).length ≠ HEADER_SIZE := by
  decide

/-- C9: the claim states that two calls with equal width, height and pixels
return buffers that agree on every byte.  The final byte of each returned
buffer is read from memory the code never initializes, so two calls on
identical inputs need not agree there: with the uninitialized allocation
modelled as all-zero in one call and as all-one (`mem = fun _ => 1`, and
likewise for the padding byte `pad`) in the other, the outputs differ, for
an empty pixel array and for a nonempty one alike. -/
theorem C9_uninit_byte_nondeterminism :
    encode 0 0 [] (fun _ => 0) 0 ≠ encode 0 0 [] (fun _ => 0) 1 ∧
      encode 1 1 [PixelBGRA.mk 1 2 3 4] (fun _ => 0) 0
        ≠ encode 1 1 [PixelBGRA.mk 1 2 3 4] (fun _ => 1) 0 := by
  decide

/-- C10: in every encoded buffer the byte at offset 0 (`id_length`) is 17 and
the 17 bytes at offsets 18..34 are exactly the ASCII string
"drewcrawford/tgar", the same constant for all inputs. -/
theorem C10_image_id (width height : Nat) (data : List PixelBGRA)
    (mem : Nat → Nat) (pad : Nat) (hlen : width * height = data.length) :
    ((encode width height data mem pad).getD []).getD 0 0 = 17 ∧
      (((encode width height data mem pad).getD []).drop 18).take 17
        = "drewcrawford/tgar".data.map Char.toNat := by
  obtain ⟨junk, hj⟩ := encode_eq_some width height data mem pad hlen
  rw [hj]
  simp only [Option.getD_some]
  constructor
  · rw [fieldBytes_new_bgra]
    rfl
  · rw [fieldBytes_id_slice width height (pixelBytes data ++ [junk])]
    exact IMAGE_ID_eq_string

theorem C10_image_id_witness :
    (2 * 1 = [PixelBGRA.mk 1 2 3 4, PixelBGRA.mk 5 6 7 8].length) ∧
      (((encode 2 1 [PixelBGRA.mk 1 2 3 4, PixelBGRA.mk 5 6 7 8]
            (fun _ => 0) 0).getD []).getD 0 0 = 17 ∧
        (((encode 2 1 [PixelBGRA.mk 1 2 3 4, PixelBGRA.mk 5 6 7 8]
            (fun _ => 0) 0).getD []).drop 18).take 17
          = "drewcrawford/tgar".data.map Char.toNat) :=
  ⟨rfl, C10_image_id 2 1 [PixelBGRA.mk 1 2 3 4, PixelBGRA.mk 5 6 7 8] (fun _ => 0) 0 rfl⟩

end Tgar
